import Mathlib

/-!
# A verification model of the local prompt-versioning and context-cache layer

The repository's notebooks drive a remote prompt-management / context-caching
service through SDK calls; the behaviour itself is not implemented in the
notebooks.  The repository's design document specifies a minimal in-process
emulation layer (PromptStore, ContentCache, a variable-substitution helper,
and a chat-history wrapper).  This file embeds that layer and proves the
stated properties about it.
-/

namespace PromptMgmt

/-- Modelled from the spec: the two error kinds of the core
(`ValidationError` for malformed input, `NotFoundError` for unknown or
expired identifiers). -/
inductive StoreError where
  | ValidationError
  | NotFoundError
deriving DecidableEq, Repr

/-- The opening-brace character of a placeholder token. -/
def lbrace : Char := Char.ofNat 123

/-- The closing-brace character of a placeholder token. -/
def rbrace : Char := Char.ofNat 125

/-- Look up a variable binding by name; the first binding for a name wins. -/
def lookupBinding (b : List (String × String)) (n : String) : Option String :=
  (b.find? (fun p => p.1 == n)).map Prod.snd

mutual

/-- Modelled from the spec: the single left-to-right pass of `assemble` over
the body, copying literal characters.  An opening brace switches to
`substName`, which collects the placeholder name.  Returns `none` when a
placeholder has no binding. -/
def substGo (b : List (String × String)) : List Char → Option (List Char)
  | [] => some []
  | c :: rest =>
    if c = lbrace then substName b [] rest
    else (substGo b rest).map (fun out => c :: out)

/-- Modelled from the spec: inside a placeholder, characters are collected
(in reverse) into `acc` until the closing brace, at which point the bound
value is inserted verbatim — it is emitted to the output without being
rescanned, so a value containing braces is never substituted again.  An
unterminated opening brace is kept as literal text. -/
def substName (b : List (String × String)) (acc : List Char) :
    List Char → Option (List Char)
  | [] => some (lbrace :: acc.reverse)
  | c :: rest =>
    if c = rbrace then
      match lookupBinding b (String.mk acc.reverse) with
      | some v => (substGo b rest).map (fun out => v.toList ++ out)
      | none => none
    else substName b (c :: acc) rest

end

mutual

/-- The placeholder names scanned by `substGo`, in order of occurrence. -/
def phGo : List Char → List String
  | [] => []
  | c :: rest => if c = lbrace then phName [] rest else phGo rest

/-- The placeholder names scanned by `substName`. -/
def phName (acc : List Char) : List Char → List String
  | [] => []
  | c :: rest =>
    if c = rbrace then String.mk acc.reverse :: phGo rest
    else phName (c :: acc) rest

end

/-- Modelled from the spec: `assemble` replaces every `\x7bname\x7d`
occurrence in the body with the bound value, in one literal text-replacement
pass; it fails with `ValidationError` when a placeholder has no binding. -/
def assemble (body : String) (b : List (String × String)) :
    Except StoreError String :=
  match substGo b body.toList with
  | some out => .ok (String.mk out)
  | none => .error .ValidationError

/-- The placeholder names occurring in a template body. -/
def placeholders (body : String) : List String :=
  phGo body.toList

/-- Modelled from the spec: immutable copy of body/modelId/systemInstruction
taken when a version is created. -/
structure Snapshot where
  body : String
  modelId : String
  systemInstruction : Option String
deriving DecidableEq, Repr

/-- Modelled from the spec: a `PromptVersion` — versionId unique and strictly
increasing within its template, an immutable snapshot, and a creation time. -/
structure PromptVersion where
  versionId : Nat
  snapshot : Snapshot
  createdAt : Int
deriving DecidableEq, Repr

/-- Modelled from the spec: a `PromptTemplate` with a stable id, a human
label, and its ordered version history (insertion order = creation order). -/
structure PromptTemplate where
  id : Nat
  name : String
  versions : List PromptVersion
deriving DecidableEq, Repr

/-- Modelled from the spec: the `PromptStore`, a keyed in-memory store of
templates in creation order, with a counter issuing fresh ids. -/
structure PromptStore where
  templates : List PromptTemplate
  nextId : Nat
deriving DecidableEq, Repr

/-- The empty prompt store. -/
def PromptStore.empty : PromptStore := ⟨[], 1⟩

/-- The largest versionId present in a template (`0` for no versions). -/
def maxVersionId (t : PromptTemplate) : Nat :=
  t.versions.foldr (fun v m => max v.versionId m) 0

/-- Find a template by id. -/
def findTemplate (s : PromptStore) (id : Nat) : Option PromptTemplate :=
  s.templates.find? (fun t => t.id == id)

/-- Replace the template with the given id by `f` of it, keeping order. -/
def updateTemplate (s : PromptStore) (id : Nat)
    (f : PromptTemplate → PromptTemplate) : PromptStore :=
  ⟨s.templates.map (fun t => if t.id == id then f t else t), s.nextId⟩

/-- Modelled from the spec: `create(name, body, modelId, systemInstruction)`
makes a fresh template whose history is exactly version 1; fails with
`ValidationError` if `body` or `name` is empty. -/
def PromptStore.create (s : PromptStore) (name body modelId : String)
    (sys : Option String) (now : Int) :
    Except StoreError (PromptTemplate × PromptStore) :=
  if body = "" ∨ name = "" then .error .ValidationError
  else
    let t : PromptTemplate := ⟨s.nextId, name, [⟨1, ⟨body, modelId, sys⟩, now⟩]⟩
    .ok (t, ⟨s.templates ++ [t], s.nextId + 1⟩)

/-- Modelled from the spec: `createVersion` appends a new version with
`versionId = max(existing versionIds) + 1`; `NotFoundError` on unknown id. -/
def PromptStore.createVersion (s : PromptStore) (id : Nat)
    (body modelId : String) (sys : Option String) (now : Int) :
    Except StoreError (PromptVersion × PromptStore) :=
  match findTemplate s id with
  | none => .error .NotFoundError
  | some t =>
    let v : PromptVersion := ⟨maxVersionId t + 1, ⟨body, modelId, sys⟩, now⟩
    .ok (v, updateTemplate s id (fun u => ⟨u.id, u.name, u.versions ++ [v]⟩))

/-- The presented ("current") state of a template: view of its last version. -/
structure Prompt where
  prompt_id : Nat
  prompt_data : String
  model_name : String
  system_instruction : Option String
deriving DecidableEq, Repr

/-- Modelled from the spec: `get(id)` returns the template with its latest
version as the presented state; `NotFoundError` on unknown id. -/
def PromptStore.get (s : PromptStore) (id : Nat) : Except StoreError Prompt :=
  match findTemplate s id with
  | none => .error .NotFoundError
  | some t =>
    match t.versions.getLast? with
    | none => .error .NotFoundError
    | some v =>
      .ok ⟨t.id, v.snapshot.body, v.snapshot.modelId, v.snapshot.systemInstruction⟩

/-- Modelled from the spec: `listVersions(id)` returns the sequence of
`(versionId, createdAt)` pairs, ascending by versionId. -/
def PromptStore.list_versions (s : PromptStore) (id : Nat) :
    Except StoreError (List (Nat × Int)) :=
  match findTemplate s id with
  | none => .error .NotFoundError
  | some t => .ok (t.versions.map (fun v => (v.versionId, v.createdAt)))

/-- Modelled from the spec: `restoreVersion(id, versionId)` locates the
historical version and re-appends its snapshot as a new version with a new
versionId (never reusing the old one); `NotFoundError` when `id` or
`versionId` is unknown. -/
def PromptStore.restore_version (s : PromptStore) (id vId : Nat) (now : Int) :
    Except StoreError (PromptVersion × PromptStore) :=
  match findTemplate s id with
  | none => .error .NotFoundError
  | some t =>
    match t.versions.find? (fun v => v.versionId == vId) with
    | none => .error .NotFoundError
    | some old =>
      let v : PromptVersion := ⟨maxVersionId t + 1, old.snapshot, now⟩
      .ok (v, updateTemplate s id (fun u => ⟨u.id, u.name, u.versions ++ [v]⟩))

/-- Modelled from the spec: `delete(id)` removes the template and all its
versions irrevocably; `NotFoundError` on unknown id (so a second delete of
the same id fails). -/
def PromptStore.delete (s : PromptStore) (id : Nat) :
    Except StoreError PromptStore :=
  if s.templates.any (fun t => t.id == id) then
    .ok ⟨s.templates.filter (fun t => t.id != id), s.nextId⟩
  else .error .NotFoundError

/-- Local field update of a retrieved `Prompt` object: a pure copy with a new
body, touching no store. -/
def setPromptData (p : Prompt) (d : String) : Prompt :=
  ⟨p.prompt_id, d, p.model_name, p.system_instruction⟩

/-- Persisting a (possibly locally modified) `Prompt` object as a new version
under its own prompt id. -/
def PromptStore.create_version_from (s : PromptStore) (p : Prompt) (now : Int) :
    Except StoreError (PromptVersion × PromptStore) :=
  s.createVersion p.prompt_id p.prompt_data p.model_name p.system_instruction now

/-- Modelled from the spec: `assemble` applied to a prompt object.  The pair
result makes the post-call state of the object explicit: the object is
returned unchanged, so the template can be assembled repeatedly. -/
def Prompt.assemble_contents (p : Prompt) (b : List (String × String)) :
    Except StoreError (String × Prompt) :=
  (assemble p.prompt_data b).map (fun r => (r, p))

/-- Modelled from the spec: a `CacheEntry` — opaque handle, target model,
ordered payload references (pointer plus MIME-type tag), optional system
instruction and display name, and `createdAt`/`expiresAt` timestamps. -/
structure CacheEntry where
  handle : Nat
  modelId : String
  payloadRefs : List (String × String)
  systemInstruction : Option String
  displayName : Option String
  createdAt : Int
  expiresAt : Int
deriving DecidableEq, Repr

/-- Modelled from the spec: the `ContentCache`, entries in creation order with
a counter issuing collision-free handles. -/
structure ContentCache where
  entries : List CacheEntry
  nextHandle : Nat
deriving DecidableEq, Repr

/-- The empty content cache. -/
def ContentCache.empty : ContentCache := ⟨[], 1⟩

/-- Modelled from the spec: `create(modelId, payloadRefs, systemInstruction,
ttlSeconds, displayName)` registers an entry with
`expiresAt = createdAt + ttl`; fails with `ValidationError` if `payloadRefs`
is empty or `ttlSeconds <= 0`. -/
def ContentCache.create (c : ContentCache) (modelId : String)
    (refs : List (String × String)) (sys : Option String) (ttl : Int)
    (dn : Option String) (now : Int) :
    Except StoreError (CacheEntry × ContentCache) :=
  if refs = [] ∨ ttl ≤ 0 then .error .ValidationError
  else
    let e : CacheEntry := ⟨c.nextHandle, modelId, refs, sys, dn, now, now + ttl⟩
    .ok (e, ⟨c.entries ++ [e], c.nextHandle + 1⟩)

/-- Modelled from the spec: `get(handle)` re-checks expiry at call time
(lazy expiration); an unknown handle and an expired entry both yield
`NotFoundError`. -/
def ContentCache.get (c : ContentCache) (h : Nat) (now : Int) :
    Except StoreError CacheEntry :=
  match c.entries.find? (fun e => e.handle == h) with
  | none => .error .NotFoundError
  | some e => if now < e.expiresAt then .ok e else .error .NotFoundError

/-- Modelled from the spec: `list()` returns only non-expired entries, in
creation order. -/
def ContentCache.list (c : ContentCache) (now : Int) : List CacheEntry :=
  c.entries.filter (fun e => decide (now < e.expiresAt))

/-- Modelled from the spec: `delete(handle)` removes the entry immediately
regardless of expiry state; `NotFoundError` on unknown handle. -/
def ContentCache.delete (c : ContentCache) (h : Nat) :
    Except StoreError ContentCache :=
  if c.entries.any (fun e => e.handle == h) then
    .ok ⟨c.entries.filter (fun e => e.handle != h), c.nextHandle⟩
  else .error .NotFoundError

/-- One message of a chat history: a role (`"user"` or `"model"`) and text. -/
structure Content where
  role : String
  text : String
deriving DecidableEq, Repr

/-- Modelled from the spec: a chat session object managing the state of the
conversation — its history is simply a list of previous input/output
messages. -/
structure Chat where
  history : List Content
deriving DecidableEq, Repr

/-- Modelled from the spec: `chats.create` starts a session from an optional
initial history of alternating user/model messages. -/
def Chat.create (history : List Content) : Chat := ⟨history⟩

/-- The chat session's recorded history. -/
def Chat.get_history (c : Chat) : List Content := c.history

/-- Modelled from the spec: `send_message` obtains the model's reply (the
remote generation call, abstracted as the oracle applied to the history with
the new user message) and appends your message and the response to the chat
history. -/
def Chat.send_message (c : Chat) (oracle : List Content → String)
    (msg : String) : String × Chat :=
  let reply := oracle (c.history ++ [⟨"user", msg⟩])
  (reply, ⟨c.history ++ [⟨"user", msg⟩, ⟨"model", reply⟩]⟩)

/-- A history is a well-formed dialogue when it consists of user/model pairs:
roles alternate starting with `"user"`. -/
def dialogueB : List Content → Bool
  | [] => true
  | [_] => false
  | u :: m :: rest => u.role == "user" && m.role == "model" && dialogueB rest

/-! ## Lemmas about the substitution pass -/

theorem subst_none_iff (b : List (String × String)) :
    ∀ l : List Char,
      (substGo b l = none ↔ ∃ n ∈ phGo l, lookupBinding b n = none) ∧
      (∀ acc, substName b acc l = none ↔
        ∃ n ∈ phName acc l, lookupBinding b n = none) := by
  intro l
  induction l with
  | nil =>
    refine ⟨by simp [substGo, phGo], fun acc => by simp [substName, phName]⟩
  | cons c rest ih =>
    constructor
    · by_cases h : c = lbrace
      · simpa [substGo, phGo, h] using ih.2 []
      · simpa [substGo, phGo, h, Option.map_eq_none'] using ih.1
    · intro acc
      by_cases h : c = rbrace
      · cases hl : lookupBinding b (String.mk acc.reverse) with
        | none =>
          simp only [substName, phName, if_pos h, hl]
          exact ⟨fun _ => ⟨String.mk acc.reverse, List.mem_cons_self _ _, hl⟩,
            fun _ => trivial⟩
        | some v =>
          simp only [substName, phName, if_pos h, hl, Option.map_eq_none',
            List.mem_cons]
          rw [ih.1]
          constructor
          · rintro ⟨n, hn, hnone⟩
            exact ⟨n, Or.inr hn, hnone⟩
          · rintro ⟨n, hn | hn, hnone⟩
            · rw [hn] at hnone
              rw [hnone] at hl
              exact absurd hl (by simp)
            · exact ⟨n, hn, hnone⟩
      · simpa [substName, phName, h] using ih.2 (c :: acc)

theorem lookupBinding_cons_ne (b : List (String × String)) (n m v : String)
    (h : m ≠ n) : lookupBinding ((n, v) :: b) m = lookupBinding b m := by
  have hnm : (n == m) = false := beq_eq_false_iff_ne.mpr (Ne.symm h)
  simp [lookupBinding, List.find?, hnm]

theorem subst_extra_binding (b : List (String × String)) (n v : String) :
    ∀ l : List Char,
      (n ∉ phGo l → substGo ((n, v) :: b) l = substGo b l) ∧
      (∀ acc, n ∉ phName acc l →
        substName ((n, v) :: b) acc l = substName b acc l) := by
  intro l
  induction l with
  | nil =>
    exact ⟨fun _ => rfl, fun acc _ => rfl⟩
  | cons c rest ih =>
    constructor
    · intro hn
      by_cases h : c = lbrace
      · rw [phGo, if_pos h] at hn
        simp only [substGo, if_pos h]
        exact ih.2 [] hn
      · rw [phGo, if_neg h] at hn
        simp only [substGo, if_neg h, ih.1 hn]
    · intro acc hn
      by_cases h : c = rbrace
      · rw [phName, if_pos h, List.mem_cons, not_or] at hn
        rw [substName, substName, if_pos h, if_pos h,
          lookupBinding_cons_ne b n _ v (Ne.symm hn.1)]
        cases lookupBinding b (String.mk acc.reverse) with
        | none => rfl
        | some w => rw [ih.1 hn.2]
      · rw [phName, if_neg h] at hn
        simp only [substName, if_neg h]
        exact ih.2 (c :: acc) hn

/-- C4: `assemble(template, bindings)` fails with `ValidationError` if and
only if some placeholder in the body has no binding for its name; a binding
for a name that does not occur as a placeholder is ignored and never causes
failure. -/
theorem assemble_validation_iff (body : String) (b : List (String × String)) :
    (assemble body b = .error .ValidationError ↔
      ∃ n ∈ placeholders body, lookupBinding b n = none) ∧
    (∀ n v, n ∉ placeholders body →
      assemble body ((n, v) :: b) = assemble body b) := by
  constructor
  · unfold placeholders
    rw [← (subst_none_iff b body.toList).1]
    unfold assemble
    cases substGo b body.toList <;> simp
  · intro n v hn
    unfold placeholders at hn
    unfold assemble
    rw [(subst_extra_binding b n v body.toList).1 hn]

/-- Witness for C4 at a concrete body and bindings. -/
theorem assemble_validation_iff_witness :
    "y" ∉ placeholders (String.mk [lbrace, 'x', rbrace]) ∧
    assemble (String.mk [lbrace, 'x', rbrace]) (("y", "1") :: [("x", "A")]) =
      assemble (String.mk [lbrace, 'x', rbrace]) [("x", "A")] :=
  ⟨by decide,
    (assemble_validation_iff (String.mk [lbrace, 'x', rbrace])
      [("x", "A")]).2 "y" "1" (by decide)⟩

/-! ## Chunked bodies: literal single-pass substitution (C5) -/

/-- A chunk of a template body: literal text, or a placeholder hole. -/
inductive Chunk where
  | lit (s : List Char)
  | hole (n : List Char)
deriving DecidableEq, Repr

/-- The body text denoted by a chunk sequence: holes are rendered as their
name between braces. -/
def chunksBody : List Chunk → List Char
  | [] => []
  | .lit s :: cs => s ++ chunksBody cs
  | .hole n :: cs => lbrace :: (n ++ rbrace :: chunksBody cs)

/-- A chunk is good for a binding set when its literal text contains no
opening brace, and a hole's name contains no closing brace and is bound.
The bound value itself is unconstrained: it may contain braces. -/
def goodChunk (b : List (String × String)) : Chunk → Bool
  | .lit s => decide (lbrace ∉ s)
  | .hole n => decide (rbrace ∉ n) && (lookupBinding b (String.mk n)).isSome

/-- The expected assembly of a chunk sequence: literals kept, every hole
replaced by its bound value verbatim, with no rescanning of the value. -/
def renderChunks (b : List (String × String)) : List Chunk → List Char
  | [] => []
  | .lit s :: cs => s ++ renderChunks b cs
  | .hole n :: cs =>
    ((lookupBinding b (String.mk n)).getD "").toList ++ renderChunks b cs

theorem substGo_append_lit (b : List (String × String)) (s : List Char)
    (hs : lbrace ∉ s) (t : List Char) :
    substGo b (s ++ t) = (substGo b t).map (fun out => s ++ out) := by
  induction s with
  | nil => simp
  | cons c s ih =>
    rw [List.mem_cons, not_or] at hs
    rw [List.cons_append, substGo, if_neg (Ne.symm hs.1), ih hs.2,
      Option.map_map]
    cases substGo b t <;> simp

theorem substName_closes (b : List (String × String)) (n : List Char)
    (hn : rbrace ∉ n) : ∀ (acc t : List Char),
    substName b acc (n ++ rbrace :: t) =
      match lookupBinding b (String.mk (acc.reverse ++ n)) with
      | some v => (substGo b t).map (fun out => v.toList ++ out)
      | none => none := by
  induction n with
  | nil =>
    intro acc t
    rw [List.nil_append, substName, if_pos rfl]
    simp
  | cons c n ih =>
    intro acc t
    rw [List.mem_cons, not_or] at hn
    rw [List.cons_append, substName, if_neg (Ne.symm hn.1), ih hn.2]
    simp [List.append_assoc]

/-- C5: over any body made of literal chunks and bound holes, `assemble`'s
pass replaces every hole occurrence with the bound value by literal
insertion: the value is emitted verbatim (`renderChunks` never scans it), so
values containing braces are never substituted again. -/
theorem assemble_chunks_literal (b : List (String × String)) :
    ∀ cs : List Chunk, (∀ ch ∈ cs, goodChunk b ch = true) →
      substGo b (chunksBody cs) = some (renderChunks b cs) := by
  intro cs hcs
  induction cs with
  | nil => rfl
  | cons ch cs ih =>
    have hch := hcs ch (List.mem_cons_self _ _)
    have hrest : ∀ c ∈ cs, goodChunk b c = true :=
      fun c hc => hcs c (List.mem_cons_of_mem _ hc)
    cases ch with
    | lit s =>
      rw [goodChunk, decide_eq_true_eq] at hch
      rw [chunksBody, substGo_append_lit b s hch, ih hrest, renderChunks]
      rfl
    | hole n =>
      rw [goodChunk, Bool.and_eq_true, decide_eq_true_eq,
        Option.isSome_iff_exists] at hch
      obtain ⟨hrb, v, hv⟩ := hch
      rw [chunksBody, substGo, if_pos rfl,
        substName_closes b n hrb [] (chunksBody cs)]
      simp only [List.reverse_nil, List.nil_append, hv, ih hrest,
        renderChunks, Option.map_some', Option.getD_some]

/-- Witness for C5: the bound value contains a brace-wrapped name and is
inserted verbatim, not substituted again. -/
theorem assemble_chunks_literal_witness :
    (∀ ch ∈ [Chunk.lit ['H', 'i', ' '], Chunk.hole ['x']],
      goodChunk [("x", String.mk ['a', lbrace, 'y', rbrace, 'b']), ("y", "no")]
        ch = true) ∧
    substGo [("x", String.mk ['a', lbrace, 'y', rbrace, 'b']), ("y", "no")]
        (chunksBody [Chunk.lit ['H', 'i', ' '], Chunk.hole ['x']]) =
      some ['H', 'i', ' ', 'a', lbrace, 'y', rbrace, 'b'] :=
  ⟨by decide,
    by
      rw [assemble_chunks_literal
        [("x", String.mk ['a', lbrace, 'y', rbrace, 'b']), ("y", "no")]
        [Chunk.lit ['H', 'i', ' '], Chunk.hole ['x']] (by decide)]
      decide⟩

/-! ## Lemmas about the prompt store -/

theorem versionId_le_foldr (l : List PromptVersion) (v : PromptVersion)
    (hv : v ∈ l) :
    v.versionId ≤ l.foldr (fun v m => max v.versionId m) 0 := by
  induction l with
  | nil => cases hv
  | cons a l ih =>
    rcases List.mem_cons.mp hv with h | h
    · rw [h, List.foldr_cons]
      exact le_max_left _ _
    · exact le_trans (ih h) (le_max_right _ _)

theorem versionId_le_max (t : PromptTemplate) (v : PromptVersion)
    (hv : v ∈ t.versions) : v.versionId ≤ maxVersionId t :=
  versionId_le_foldr t.versions v hv

theorem find?_update (l : List PromptTemplate) (id : Nat)
    (f : PromptTemplate → PromptTemplate) (hf : ∀ u, (f u).id = u.id) :
    (l.map (fun t => if t.id == id then f t else t)).find?
        (fun t => t.id == id) =
      (l.find? (fun t => t.id == id)).map f := by
  induction l with
  | nil => rfl
  | cons a l ih =>
    by_cases hb : a.id = id
    · have hb' : (a.id == id) = true := by simpa using hb
      rw [List.map_cons, if_pos hb']
      simp only [List.find?, hf, hb', Option.map_some']
    · have hb' : (a.id == id) = false := by simpa using hb
      have hc : ¬((a.id == id) = true) := by simp [hb']
      rw [List.map_cons, if_neg hc]
      simp only [List.find?, hb']
      exact ih

theorem findTemplate_updateTemplate (s : PromptStore) (id : Nat)
    (f : PromptTemplate → PromptTemplate) (hf : ∀ u, (f u).id = u.id) :
    findTemplate (updateTemplate s id f) id = (findTemplate s id).map f :=
  find?_update s.templates id f hf

theorem mem_updateTemplate_of_ne (s : PromptStore) (id : Nat)
    (f : PromptTemplate → PromptTemplate) (u : PromptTemplate)
    (hu : u ∈ s.templates) (hne : u.id ≠ id) :
    u ∈ (updateTemplate s id f).templates := by
  have hfix : (fun t => if t.id == id then f t else t) u = u := by
    simp [hne]
  exact hfix ▸ List.mem_map_of_mem _ hu

/-- C1: restoring an existing version appends its snapshot as a new version
whose versionId is `max(existing) + 1` (never the restored id), after which
`get` presents exactly that snapshot as the current body, modelId and
systemInstruction, and the version list ends with the new id. -/
theorem restore_version_spec (s : PromptStore) (id vId : Nat) (now : Int)
    (t : PromptTemplate) (old : PromptVersion)
    (ht : findTemplate s id = some t)
    (hv : t.versions.find? (fun v => v.versionId == vId) = some old) :
    ∃ nv s', s.restore_version id vId now = .ok (nv, s') ∧
      nv.versionId = maxVersionId t + 1 ∧
      nv.versionId ≠ vId ∧
      nv.snapshot = old.snapshot ∧
      s'.get id = .ok ⟨t.id, old.snapshot.body, old.snapshot.modelId,
        old.snapshot.systemInstruction⟩ ∧
      s'.list_versions id =
        .ok ((t.versions.map (fun v => (v.versionId, v.createdAt))) ++
          [(maxVersionId t + 1, now)]) := by
  have hvm : old.versionId = vId := by
    have := List.find?_some hv
    simpa using this
  have hmem : old ∈ t.versions := List.mem_of_find?_eq_some hv
  have hle : vId ≤ maxVersionId t := hvm ▸ versionId_le_max t old hmem
  have hft : findTemplate (updateTemplate s id
      (fun u => ⟨u.id, u.name, u.versions ++
        [(⟨maxVersionId t + 1, old.snapshot, now⟩ : PromptVersion)]⟩)) id =
      some ⟨t.id, t.name, t.versions ++
        [⟨maxVersionId t + 1, old.snapshot, now⟩]⟩ := by
    have h2 := findTemplate_updateTemplate s id
      (fun u => ⟨u.id, u.name, u.versions ++
        [(⟨maxVersionId t + 1, old.snapshot, now⟩ : PromptVersion)]⟩)
      (fun u => rfl)
    rw [ht, Option.map_some'] at h2
    exact h2
  refine ⟨⟨maxVersionId t + 1, old.snapshot, now⟩,
    updateTemplate s id (fun u => ⟨u.id, u.name, u.versions ++
      [⟨maxVersionId t + 1, old.snapshot, now⟩]⟩), ?_, rfl, ?_, rfl, ?_, ?_⟩
  · simp only [PromptStore.restore_version, ht, hv]
  · intro hEq
    have h' : maxVersionId t + 1 = vId := hEq
    omega
  · unfold PromptStore.get
    rw [hft]
    simp [List.getLast?_concat]
  · unfold PromptStore.list_versions
    rw [hft]
    simp

/-- Sample data: version 1 of a template. -/
def sampleV1 : PromptVersion := ⟨1, ⟨"b1", "m1", none⟩, 0⟩

/-- Sample data: version 2 of a template. -/
def sampleV2 : PromptVersion := ⟨2, ⟨"b2", "m2", some "s2"⟩, 1⟩

/-- Sample data: a template with two versions. -/
def sampleTemplate : PromptTemplate := ⟨1, "t1", [sampleV1, sampleV2]⟩

/-- Sample data: a store holding the sample template. -/
def sampleStore : PromptStore := ⟨[sampleTemplate], 2⟩

/-- Witness for C1: restoring version 1 of the sample template. -/
theorem restore_version_spec_witness :
    findTemplate sampleStore 1 = some sampleTemplate ∧
    sampleTemplate.versions.find? (fun v => v.versionId == 1) = some sampleV1 ∧
    (∃ nv s', sampleStore.restore_version 1 1 5 = .ok (nv, s') ∧
      nv.versionId = maxVersionId sampleTemplate + 1 ∧
      nv.versionId ≠ 1 ∧
      nv.snapshot = sampleV1.snapshot ∧
      s'.get 1 = .ok ⟨sampleTemplate.id, sampleV1.snapshot.body,
        sampleV1.snapshot.modelId, sampleV1.snapshot.systemInstruction⟩ ∧
      s'.list_versions 1 =
        .ok ((sampleTemplate.versions.map
          (fun v => (v.versionId, v.createdAt))) ++
            [(maxVersionId sampleTemplate + 1, 5)])) :=
  ⟨by decide, by decide,
    restore_version_spec sampleStore 1 1 5 sampleTemplate sampleV1
      (by decide) (by decide)⟩

/-! ## The version-ordering invariant (C3) -/

/-- The sequence of versionIds of a version list. -/
def versionIds (l : List PromptVersion) : List Nat :=
  l.map (fun v => v.versionId)

/-- A version history is well formed when it is non-empty and its versionIds
are exactly the consecutive integers 1..n: strictly increasing, starting at
1, with no gaps. -/
def VersionsWF (l : List PromptVersion) : Prop :=
  l ≠ [] ∧ versionIds l = List.range' 1 l.length

/-- A template is well formed when its version history is. -/
def TemplateWF (t : PromptTemplate) : Prop :=
  VersionsWF t.versions

/-- A store is well formed: template ids are distinct and below the fresh-id
counter, and every template's version history is well formed. -/
def StoreWF (s : PromptStore) : Prop :=
  (s.templates.map (fun t => t.id)).Nodup ∧
  (∀ t ∈ s.templates, t.id < s.nextId) ∧
  (∀ t ∈ s.templates, TemplateWF t)

theorem foldr_max_versions (l : List PromptVersion) :
    l.foldr (fun v m => max v.versionId m) 0 = (versionIds l).foldr max 0 := by
  induction l with
  | nil => rfl
  | cons a l ih => simp [versionIds, ih]

theorem foldr_max_range' : ∀ (n s : Nat),
    (List.range' s n).foldr max 0 = if n = 0 then 0 else s + n - 1 := by
  intro n
  induction n with
  | zero => intro s; rfl
  | succ m ih =>
    intro s
    rw [List.range'_succ, List.foldr_cons, ih]
    by_cases hm : m = 0
    · subst hm
      simp
    · rw [if_neg hm, if_neg (Nat.succ_ne_zero m)]
      omega

/-- In a well-formed history the largest versionId is the history length. -/
theorem maxVersionId_of_wf (t : PromptTemplate) (h : VersionsWF t.versions) :
    maxVersionId t = t.versions.length := by
  obtain ⟨hne, hids⟩ := h
  have hlen : t.versions.length ≠ 0 :=
    Nat.pos_iff_ne_zero.mp (List.length_pos.mpr hne)
  rw [maxVersionId, foldr_max_versions, hids, foldr_max_range', if_neg hlen]
  omega

theorem versionsWF_append_max (t : PromptTemplate) (h : TemplateWF t)
    (snap : Snapshot) (now : Int) :
    VersionsWF (t.versions ++ [⟨maxVersionId t + 1, snap, now⟩]) := by
  have hmax := maxVersionId_of_wf t h
  obtain ⟨hne, hids⟩ := h
  constructor
  · simp
  · simp only [versionIds, List.map_append, List.map_cons, List.map_nil,
      List.length_append, List.length_cons, List.length_nil]
    have hids' : t.versions.map (fun v => v.versionId) =
        List.range' 1 t.versions.length := hids
    rw [hids', hmax, List.range'_1_concat, Nat.add_comm 1 t.versions.length]

theorem ids_update (l : List PromptTemplate) (id : Nat)
    (f : PromptTemplate → PromptTemplate) (hf : ∀ u, (f u).id = u.id) :
    (l.map (fun t => if t.id == id then f t else t)).map (fun t => t.id) =
      l.map (fun t => t.id) := by
  rw [List.map_map]
  refine List.map_congr_left ?_
  intro a _
  by_cases h : a.id = id
  · simp only [Function.comp_apply, if_pos (show (a.id == id) = true by
      simpa using h), hf]
  · simp only [Function.comp_apply,
      if_neg (show ¬((a.id == id) = true) by simp [h])]

theorem storeWF_update_append (s : PromptStore) (id : Nat)
    (t : PromptTemplate) (ht : findTemplate s id = some t)
    (hs : StoreWF s) (snap : Snapshot) (now : Int) :
    StoreWF (updateTemplate s id (fun u => ⟨u.id, u.name,
      u.versions ++ [⟨maxVersionId t + 1, snap, now⟩]⟩)) := by
  obtain ⟨hnd, hbound, hwf⟩ := hs
  have htmem : t ∈ s.templates := List.mem_of_find?_eq_some ht
  have htid : t.id = id := by simpa using List.find?_some ht
  refine ⟨?_, ?_, ?_⟩
  · rw [show (updateTemplate s id (fun u => ⟨u.id, u.name,
      u.versions ++ [⟨maxVersionId t + 1, snap, now⟩]⟩)).templates =
        s.templates.map (fun u => if u.id == id then
          ⟨u.id, u.name, u.versions ++ [⟨maxVersionId t + 1, snap, now⟩]⟩
          else u) from rfl]
    have hids := ids_update s.templates id (fun u => ⟨u.id, u.name,
      u.versions ++ [(⟨maxVersionId t + 1, snap, now⟩ : PromptVersion)]⟩)
      (fun u => rfl)
    rw [hids]
    exact hnd
  · intro t' ht'
    obtain ⟨u, hu, hrf⟩ := List.mem_map.mp ht'
    have hid : t'.id = u.id := by
      rw [← hrf]
      by_cases h : u.id = id
      · rw [if_pos (show (u.id == id) = true by simpa using h)]
      · rw [if_neg (show ¬((u.id == id) = true) by simp [h])]
    rw [hid]
    exact hbound u hu
  · intro t' ht'
    obtain ⟨u, hu, hrf⟩ := List.mem_map.mp ht'
    by_cases h : u.id = id
    · have hut : u = t :=
        List.inj_on_of_nodup_map hnd hu htmem (by rw [h, htid])
      rw [← hrf, if_pos (show (u.id == id) = true by simpa using h), hut]
      exact versionsWF_append_max t (hwf t htmem) snap now
    · rw [← hrf, if_neg (show ¬((u.id == id) = true) by simp [h])]
      exact hwf u hu

/-- C3: the version-ordering invariant — every template's versionIds are
exactly the consecutive run 1..n, hence strictly increasing starting at 1
with no gaps — is preserved by `create`, `createVersion` and
`restoreVersion` (which always append `max + 1`, never reuse), and under it
`listVersions` returns the consecutive versionIds 1..n, strictly increasing
from 1. -/
theorem version_history_wf (s : PromptStore) (hs : StoreWF s) :
    (∀ name body modelId sys now t s',
      s.create name body modelId sys now = .ok (t, s') → StoreWF s') ∧
    (∀ id body modelId sys now v s',
      s.createVersion id body modelId sys now = .ok (v, s') → StoreWF s') ∧
    (∀ id vId now v s',
      s.restore_version id vId now = .ok (v, s') → StoreWF s') ∧
    (∀ id l, s.list_versions id = .ok l →
      l.map Prod.fst = List.range' 1 l.length ∧
      List.Chain' (· < ·) (l.map Prod.fst) ∧
        (l.map Prod.fst).head? = some 1) := by
  obtain ⟨hnd, hbound, hwf⟩ := hs
  refine ⟨?_, ?_, ?_, ?_⟩
  · intro name body modelId sys now t s' hok
    by_cases hcond : body = "" ∨ name = ""
    · simp [PromptStore.create, hcond] at hok
    · simp only [PromptStore.create, if_neg hcond, Except.ok.injEq,
        Prod.mk.injEq] at hok
      obtain ⟨hteq, hseq⟩ := hok
      subst hseq
      refine ⟨?_, ?_, ?_⟩
      · rw [List.map_append, List.map_cons, List.map_nil, List.nodup_append]
        refine ⟨hnd, List.nodup_singleton _, ?_⟩
        intro a ha hb
        have hb' : a = s.nextId := by simpa using hb
        obtain ⟨u, hu, hua⟩ := List.mem_map.mp ha
        have := hbound u hu
        omega
      · intro t' ht'
        rcases List.mem_append.mp ht' with h | h
        · exact Nat.lt_succ_of_lt (hbound t' h)
        · have ht'' : t' = ⟨s.nextId, name, [⟨1, ⟨body, modelId, sys⟩, now⟩]⟩ :=
            by simpa using h
          rw [ht'']
          exact Nat.lt_succ_self _
      · intro t' ht'
        rcases List.mem_append.mp ht' with h | h
        · exact hwf t' h
        · have ht'' : t' = ⟨s.nextId, name, [⟨1, ⟨body, modelId, sys⟩, now⟩]⟩ :=
            by simpa using h
          rw [ht'']
          exact ⟨List.cons_ne_nil _ _, rfl⟩
  · intro id body modelId sys now v s' hok
    cases hft : findTemplate s id with
    | none => simp [PromptStore.createVersion, hft] at hok
    | some t =>
      simp only [PromptStore.createVersion, hft, Except.ok.injEq,
        Prod.mk.injEq] at hok
      obtain ⟨hveq, hseq⟩ := hok
      subst hseq
      exact storeWF_update_append s id t hft ⟨hnd, hbound, hwf⟩
        ⟨body, modelId, sys⟩ now
  · intro id vId now v s' hok
    cases hft : findTemplate s id with
    | none => simp [PromptStore.restore_version, hft] at hok
    | some t =>
      cases hfv : t.versions.find? (fun u => u.versionId == vId) with
      | none => simp [PromptStore.restore_version, hft, hfv] at hok
      | some old =>
        simp only [PromptStore.restore_version, hft, hfv, Except.ok.injEq,
          Prod.mk.injEq] at hok
        obtain ⟨hveq, hseq⟩ := hok
        subst hseq
        exact storeWF_update_append s id t hft ⟨hnd, hbound, hwf⟩
          old.snapshot now
  · intro id l hok
    cases hft : findTemplate s id with
    | none => simp [PromptStore.list_versions, hft] at hok
    | some t =>
      simp only [PromptStore.list_versions, hft, Except.ok.injEq] at hok
      subst hok
      obtain ⟨hne, hids⟩ := hwf t (List.mem_of_find?_eq_some hft)
      have hlen : t.versions.length ≠ 0 :=
        Nat.pos_iff_ne_zero.mp (List.length_pos.mpr hne)
      have hids' : t.versions.map (fun v => v.versionId) =
          List.range' 1 t.versions.length := hids
      refine ⟨?_, ?_, ?_⟩
      · rw [List.map_map, List.length_map]
        exact hids
      · rw [List.map_map]
        show List.Chain' (· < ·) (t.versions.map (fun v => v.versionId))
        rw [hids']
        exact (List.pairwise_lt_range' 1 t.versions.length).chain'
      · rw [List.map_map]
        show (t.versions.map (fun v => v.versionId)).head? = some 1
        rw [hids', List.head?_range', if_neg hlen]

/-- The sample store satisfies the store invariant. -/
theorem sampleStore_wf : StoreWF sampleStore := by
  refine ⟨by decide, by decide, ?_⟩
  intro t ht
  have h : t = sampleTemplate := by simpa [sampleStore] using ht
  subst h
  exact ⟨List.cons_ne_nil _ _, rfl⟩

/-- Witness for C3: the invariant holds of the sample store and is kept by a
concrete `createVersion` call. -/
theorem version_history_wf_witness :
    StoreWF sampleStore ∧
    StoreWF ⟨[⟨1, "t1", [sampleV1, sampleV2, ⟨3, ⟨"b3", "m3", none⟩, 7⟩]⟩],
      2⟩ :=
  ⟨sampleStore_wf,
    (version_history_wf sampleStore sampleStore_wf).2.1 1 "b3" "m3" none 7
      ⟨3, ⟨"b3", "m3", none⟩, 7⟩
      ⟨[⟨1, "t1", [sampleV1, sampleV2, ⟨3, ⟨"b3", "m3", none⟩, 7⟩]⟩], 2⟩
      rfl⟩

/-! ## Content cache: expiry and creation (C2, C6) -/

/-- C2: once `now ≥ expiresAt`, an entry is logically absent — `get` on its
handle fails with `NotFoundError` and `list` omits it — even while it is
still physically stored in `entries` pending purge. -/
theorem cache_expired_invisible (c : ContentCache) (h : Nat) (now : Int)
    (e : CacheEntry)
    (hfind : c.entries.find? (fun x => x.handle == h) = some e)
    (hexp : e.expiresAt ≤ now) :
    e ∈ c.entries ∧
    c.get h now = .error .NotFoundError ∧
    (∀ e₂ ∈ c.entries, e₂.expiresAt ≤ now → e₂ ∉ c.list now) := by
  refine ⟨List.mem_of_find?_eq_some hfind, ?_, ?_⟩
  · simp only [ContentCache.get, hfind]
    rw [if_neg (not_lt.mpr hexp)]
  · intro e₂ _ hexp₂ hmem
    have := (List.mem_filter.mp hmem).2
    rw [decide_eq_true_eq] at this
    omega

/-- Witness for C2: a cache with one expired entry. -/
theorem cache_expired_invisible_witness :
    ([(⟨1, "m", [("r", "t")], none, none, 0, 10⟩ : CacheEntry)].find?
      (fun x => x.handle == 1) = some ⟨1, "m", [("r", "t")], none, none, 0, 10⟩) ∧
    ((10 : Int) ≤ 10) ∧
    (⟨1, "m", [("r", "t")], none, none, 0, 10⟩ : CacheEntry) ∈
      (⟨[⟨1, "m", [("r", "t")], none, none, 0, 10⟩], 2⟩ : ContentCache).entries ∧
    (⟨[⟨1, "m", [("r", "t")], none, none, 0, 10⟩], 2⟩ : ContentCache).get 1 10 =
      .error .NotFoundError ∧
    (∀ e₂ ∈ (⟨[⟨1, "m", [("r", "t")], none, none, 0, 10⟩], 2⟩ :
        ContentCache).entries, e₂.expiresAt ≤ 10 →
      e₂ ∉ (⟨[⟨1, "m", [("r", "t")], none, none, 0, 10⟩], 2⟩ :
        ContentCache).list 10) :=
  ⟨rfl, le_rfl,
    cache_expired_invisible ⟨[⟨1, "m", [("r", "t")], none, none, 0, 10⟩], 2⟩
      1 10 ⟨1, "m", [("r", "t")], none, none, 0, 10⟩ rfl le_rfl⟩

/-- C6: cache creation fails with `ValidationError` exactly when the payload
list is empty or the TTL is non-positive, and a successful creation stamps
`expiresAt = createdAt + ttl`, so `expiresAt > createdAt`. -/
theorem cache_create_spec (c : ContentCache) (modelId : String)
    (refs : List (String × String)) (sys : Option String) (ttl : Int)
    (dn : Option String) (now : Int) :
    (c.create modelId refs sys ttl dn now = .error .ValidationError ↔
      refs = [] ∨ ttl ≤ 0) ∧
    (∀ e c', c.create modelId refs sys ttl dn now = .ok (e, c') →
      e.createdAt = now ∧ e.expiresAt = now + ttl ∧
        e.createdAt < e.expiresAt) := by
  by_cases hcond : refs = [] ∨ ttl ≤ 0
  · constructor
    · simp [ContentCache.create, hcond]
    · intro e c' hok
      simp [ContentCache.create, hcond] at hok
  · constructor
    · simp [ContentCache.create, hcond]
    · intro e c' hok
      simp only [ContentCache.create, if_neg hcond, Except.ok.injEq,
        Prod.mk.injEq] at hok
      obtain ⟨heq, _⟩ := hok
      rw [← heq]
      refine ⟨rfl, rfl, ?_⟩
      show now < now + ttl
      rw [not_or, not_le] at hcond
      omega

/-- Witness for C6 at a concrete successful creation. -/
theorem cache_create_spec_witness :
    ContentCache.empty.create "m" [("r", "t")] none 60 (some "c") 100 =
      .ok (⟨1, "m", [("r", "t")], none, some "c", 100, 160⟩,
        ⟨[⟨1, "m", [("r", "t")], none, some "c", 100, 160⟩], 2⟩) ∧
    ((⟨1, "m", [("r", "t")], none, some "c", 100, 160⟩ :
        CacheEntry).createdAt = 100 ∧
      (⟨1, "m", [("r", "t")], none, some "c", 100, 160⟩ :
        CacheEntry).expiresAt = 100 + 60 ∧
      (⟨1, "m", [("r", "t")], none, some "c", 100, 160⟩ :
        CacheEntry).createdAt <
        (⟨1, "m", [("r", "t")], none, some "c", 100, 160⟩ :
          CacheEntry).expiresAt) :=
  ⟨rfl,
    (cache_create_spec ContentCache.empty "m" [("r", "t")] none 60
      (some "c") 100).2
      ⟨1, "m", [("r", "t")], none, some "c", 100, 160⟩
      ⟨[⟨1, "m", [("r", "t")], none, some "c", 100, 160⟩], 2⟩ rfl⟩

/-! ## Deletion (C7) -/

/-- C7: `delete(id)` fails with `NotFoundError` on an unknown id, and a
successful delete removes the template with all its versions, after which a
second `delete(id)` and any `get(id)` both fail with `NotFoundError` (delete
is not idempotent). -/
theorem delete_spec (s : PromptStore) (id : Nat) :
    (findTemplate s id = none → s.delete id = .error .NotFoundError) ∧
    (∀ s', s.delete id = .ok s' →
      findTemplate s' id = none ∧
      s'.delete id = .error .NotFoundError ∧
      s'.get id = .error .NotFoundError) := by
  constructor
  · intro hnone
    have hany : s.templates.any (fun t => t.id == id) = false := by
      rw [List.any_eq_false]
      exact fun t ht => List.find?_eq_none.mp hnone t ht
    unfold PromptStore.delete
    rw [if_neg (by simp [hany])]
  · intro s' hok
    unfold PromptStore.delete at hok
    split at hok
    case isTrue hany =>
      have hs' : (⟨s.templates.filter (fun t => t.id != id), s.nextId⟩ :
          PromptStore) = s' := by
        injection hok
      subst hs'
      have hfind : findTemplate
          (⟨s.templates.filter (fun t => t.id != id), s.nextId⟩ :
            PromptStore) id = none := by
        unfold findTemplate
        rw [List.find?_eq_none]
        intro t ht
        have h2 := (List.mem_filter.mp ht).2
        simp only [bne_iff_ne, ne_eq] at h2
        simp [h2]
      refine ⟨hfind, ?_, ?_⟩
      · have hany2 : (s.templates.filter (fun t => t.id != id)).any
            (fun t => t.id == id) = false := by
          rw [List.any_eq_false]
          exact List.find?_eq_none.mp hfind
        unfold PromptStore.delete
        rw [if_neg (by simp [hany2])]
      · simp only [PromptStore.get, hfind]
    case isFalse hany =>
      cases hok

/-- Witness for C7: deleting the sample template, then deleting again. -/
theorem delete_spec_witness :
    sampleStore.delete 1 = .ok (⟨[], 2⟩ : PromptStore) ∧
    (findTemplate (⟨[], 2⟩ : PromptStore) 1 = none ∧
      (⟨[], 2⟩ : PromptStore).delete 1 = .error .NotFoundError ∧
      (⟨[], 2⟩ : PromptStore).get 1 = .error .NotFoundError) :=
  ⟨rfl, (delete_spec sampleStore 1).2 ⟨[], 2⟩ rfl⟩

/-! ## Local object edits and persistence (C8, C9) -/

/-- C8: updating a field of a retrieved `Prompt` object is a local copy — it
keeps the same prompt id and store history — and a new version with the
edited body is persisted, under the same prompt id, by the subsequent
create-version call, which appends to the history and leaves every other
template unchanged. -/
theorem local_edit_frame (s : PromptStore) (id : Nat) (p : Prompt)
    (d : String) (now : Int) (t : PromptTemplate)
    (ht : findTemplate s id = some t) (hp : s.get id = .ok p) :
    (setPromptData p d).prompt_id = p.prompt_id ∧
    (setPromptData p d).model_name = p.model_name ∧
    (setPromptData p d).system_instruction = p.system_instruction ∧
    (setPromptData p d).prompt_data = d ∧
    p.prompt_id = id ∧
    s.list_versions id =
      .ok (t.versions.map (fun v => (v.versionId, v.createdAt))) ∧
    (∃ v s', s.create_version_from (setPromptData p d) now = .ok (v, s') ∧
      v.snapshot = ⟨d, p.model_name, p.system_instruction⟩ ∧
      v.versionId = maxVersionId t + 1 ∧
      findTemplate s' id = some ⟨t.id, t.name, t.versions ++ [v]⟩ ∧
      ∀ u ∈ s.templates, u.id ≠ id → u ∈ s'.templates) := by
  have htid : t.id = id := by simpa using List.find?_some ht
  subst htid
  cases hlast : t.versions.getLast? with
  | none =>
    simp only [PromptStore.get, ht, hlast] at hp
    exact Except.noConfusion hp
  | some lv =>
    simp only [PromptStore.get, ht, hlast, Except.ok.injEq] at hp
    subst hp
    refine ⟨rfl, rfl, rfl, rfl, rfl, by simp only [PromptStore.list_versions, ht], ?_⟩
    have h2 := findTemplate_updateTemplate s t.id
      (fun u => ⟨u.id, u.name, u.versions ++
        [(⟨maxVersionId t + 1, ⟨d, lv.snapshot.modelId,
          lv.snapshot.systemInstruction⟩, now⟩ : PromptVersion)]⟩)
      (fun u => rfl)
    rw [ht, Option.map_some'] at h2
    refine ⟨⟨maxVersionId t + 1, ⟨d, lv.snapshot.modelId,
        lv.snapshot.systemInstruction⟩, now⟩, _, ?_, rfl, rfl, h2, ?_⟩
    · simp only [PromptStore.create_version_from, setPromptData,
        PromptStore.createVersion, ht]
    · intro u hu hne
      exact mem_updateTemplate_of_ne s t.id _ u hu hne

/-- Witness for C8: editing the body of the retrieved sample prompt and
persisting it as version 3. -/
theorem local_edit_frame_witness :
    findTemplate sampleStore 1 = some sampleTemplate ∧
    sampleStore.get 1 = .ok ⟨1, "b2", "m2", some "s2"⟩ ∧
    ((setPromptData ⟨1, "b2", "m2", some "s2"⟩ "new").prompt_id = 1 ∧
      (setPromptData ⟨1, "b2", "m2", some "s2"⟩ "new").model_name = "m2" ∧
      (setPromptData ⟨1, "b2", "m2", some "s2"⟩ "new").system_instruction =
        some "s2" ∧
      (setPromptData ⟨1, "b2", "m2", some "s2"⟩ "new").prompt_data = "new" ∧
      (⟨1, "b2", "m2", some "s2"⟩ : Prompt).prompt_id = 1 ∧
      sampleStore.list_versions 1 =
        .ok (sampleTemplate.versions.map
          (fun v => (v.versionId, v.createdAt))) ∧
      (∃ v s', sampleStore.create_version_from
          (setPromptData ⟨1, "b2", "m2", some "s2"⟩ "new") 9 = .ok (v, s') ∧
        v.snapshot = ⟨"new", "m2", some "s2"⟩ ∧
        v.versionId = maxVersionId sampleTemplate + 1 ∧
        findTemplate s' 1 = some ⟨sampleTemplate.id, sampleTemplate.name,
          sampleTemplate.versions ++ [v]⟩ ∧
        ∀ u ∈ sampleStore.templates, u.id ≠ 1 → u ∈ s'.templates)) :=
  ⟨rfl, rfl,
    local_edit_frame sampleStore 1 ⟨1, "b2", "m2", some "s2"⟩ "new" 9
      sampleTemplate rfl rfl⟩

/-- C9: `assemble_contents` is read-only on the prompt object — on success
the returned object is the original, all template fields unchanged, so the
same template assembles repeatedly with different bindings. -/
theorem assemble_contents_readonly (p : Prompt) (b : List (String × String))
    (r : String) (p' : Prompt)
    (h : p.assemble_contents b = .ok (r, p')) :
    p' = p ∧ p'.prompt_data = p.prompt_data ∧ p'.model_name = p.model_name ∧
    p'.system_instruction = p.system_instruction ∧
    ∀ b₂, p'.assemble_contents b₂ = p.assemble_contents b₂ := by
  have hp : p' = p := by
    unfold Prompt.assemble_contents at h
    cases ha : assemble p.prompt_data b with
    | ok r₀ =>
      rw [ha] at h
      simp only [Except.map, Except.ok.injEq, Prod.mk.injEq] at h
      exact h.2.symm
    | error e =>
      rw [ha] at h
      cases h
  subst hp
  exact ⟨rfl, rfl, rfl, rfl, fun _ => rfl⟩

/-- Witness for C9 at a concrete prompt and bindings. -/
theorem assemble_contents_readonly_witness :
    (⟨1, "hello", "m", none⟩ : Prompt).assemble_contents [] =
      .ok ("hello", ⟨1, "hello", "m", none⟩) ∧
    ((⟨1, "hello", "m", none⟩ : Prompt) = ⟨1, "hello", "m", none⟩ ∧
      (⟨1, "hello", "m", none⟩ : Prompt).prompt_data = "hello" ∧
      (⟨1, "hello", "m", none⟩ : Prompt).model_name = "m" ∧
      (⟨1, "hello", "m", none⟩ : Prompt).system_instruction = none ∧
      ∀ b₂, (⟨1, "hello", "m", none⟩ : Prompt).assemble_contents b₂ =
        (⟨1, "hello", "m", none⟩ : Prompt).assemble_contents b₂) :=
  ⟨rfl,
    assemble_contents_readonly ⟨1, "hello", "m", none⟩ [] "hello"
      ⟨1, "hello", "m", none⟩ rfl⟩

/-! ## Chat history (C10) -/

theorem dialogueB_append_pair (l : List Content) (hl : dialogueB l = true)
    (u m : Content) (hu : u.role = "user") (hm : m.role = "model") :
    dialogueB (l ++ [u, m]) = true := by
  induction l using dialogueB.induct with
  | case1 =>
    simp [dialogueB, hu, hm]
  | case2 x =>
    cases hl
  | case3 a b rest ih =>
    rw [dialogueB, Bool.and_eq_true, Bool.and_eq_true] at hl
    obtain ⟨⟨ha, hb⟩, hrest⟩ := hl
    show dialogueB (a :: b :: (rest ++ [u, m])) = true
    rw [dialogueB, Bool.and_eq_true, Bool.and_eq_true]
    exact ⟨⟨ha, hb⟩, ih hrest⟩

/-- C10: from any alternating user/model history (the empty one included),
`send_message` appends exactly the caller's user message and the model's
response, so the history stays an alternating sequence of input/output
pairs, two entries longer. -/
theorem send_message_dialogue (c : Chat) (hist : dialogueB c.history = true)
    (oracle : List Content → String) (msg : String) :
    (c.send_message oracle msg).2.get_history =
      c.get_history ++
        [⟨"user", msg⟩, ⟨"model", (c.send_message oracle msg).1⟩] ∧
    dialogueB (c.send_message oracle msg).2.get_history = true ∧
    (c.send_message oracle msg).2.get_history.length =
      c.get_history.length + 2 := by
  refine ⟨rfl, ?_, by simp [Chat.send_message, Chat.get_history]⟩
  exact dialogueB_append_pair c.history hist _ _ rfl rfl

/-- Witness for C10: one exchange on a fresh chat session. -/
theorem send_message_dialogue_witness :
    dialogueB (Chat.create []).history = true ∧
    (((Chat.create []).send_message (fun _ => "re") "hi").2.get_history =
      (Chat.create []).get_history ++
        [⟨"user", "hi"⟩,
          ⟨"model", ((Chat.create []).send_message (fun _ => "re") "hi").1⟩] ∧
    dialogueB ((Chat.create []).send_message
      (fun _ => "re") "hi").2.get_history = true ∧
    ((Chat.create []).send_message (fun _ => "re") "hi").2.get_history.length =
      (Chat.create []).get_history.length + 2) :=
  ⟨rfl, send_message_dialogue (Chat.create []) rfl (fun _ => "re") "hi"⟩

end PromptMgmt
